import Mathlib

/-!
# Link resolution adapters of `parse.go`

A shallow embedding of the resolver adapters of `src/parse.go` and the
properties of them that the specification states.

Conventions of the embedding

* A Go `string` is a sequence of bytes; it is modelled by `List Char`, one
  `Char` per byte.  Every literal and every pattern of the modelled code is
  ASCII, so the functions below agree with the Go ones on UTF-8 text as well.
* A Go `map[string]string` is an association list without repeated keys;
  `none` stands for the `nil` map.
* Go `int` is `Int`.
* Calls that leave the process (HTTP requests, API clients, the re-submission
  of a link to `getDownloadLinks`) are answered by an explicit environment and
  are recorded, in order, in a trace of events.
-/

namespace DiscordDownloader

/-! ## Strings -/

/-- Go `string`. -/
abbrev GoString := List Char

/-- `strings.HasSuffix(s, suffix)`. -/
def HasSuffix (s suffix : GoString) : Bool :=
  suffix.isSuffixOf s

/-- `strings.Contains(s, substr)`. -/
def Contains (s substr : GoString) : Bool :=
  match s with
  | [] => substr.isPrefixOf []
  | c :: cs => substr.isPrefixOf (c :: cs) || Contains cs substr

/-- Left-to-right scan shared by `strings.Replace(s, old, new, -1)` and
`Regexp.ReplaceAllString`: at every position not inside an earlier match,
`matchAt` gives the length of the match that starts there (if any); the match
is replaced by `repl` and the scan resumes right after it.  The counter is the
number of characters of the current match still to be skipped. -/
def replaceScan (matchAt : GoString → Option Nat) (repl : GoString) :
    Nat → GoString → GoString
  | _, [] => []
  | skip + 1, _ :: cs => replaceScan matchAt repl skip cs
  | 0, c :: cs =>
    match matchAt (c :: cs) with
    | some (n + 1) => repl ++ replaceScan matchAt repl n cs
    | _ => c :: replaceScan matchAt repl 0 cs

/-- Match of the literal `old` at the head of `s`. -/
def literalAt (old : GoString) (s : GoString) : Option Nat :=
  if old.isPrefixOf s then some old.length else none

/-- `strings.Replace(s, old, new, -1)`: every non-overlapping occurrence of
`old`, leftmost first, is replaced by `new`.  For an empty `old` Go inserts
`new` before every character and at the end. -/
def Replace (s old new : GoString) : GoString :=
  if old = [] then new ++ s.flatMap (fun c => c :: new)
  else replaceScan (literalAt old) new 0 s

/-- Match of the regular expression `(r\/[^\/]+\/)` at the head of `s`: the
letter `r`, a slash, one or more characters other than a slash, a slash. -/
def subredditAt (s : GoString) : Option Nat :=
  match s with
  | 'r' :: '/' :: rest =>
    let seg := rest.takeWhile (fun c => c != '/')
    if seg != [] && (rest.drop seg.length).head? == some '/' then
      some (seg.length + 3)
    else none
  | _ => none

/-! ## Results -/

/-- Go `map[string]string` with its entries in insertion order. -/
abbrev Links := List (GoString × GoString)

/-- The assignment `links[k] = v`. -/
def Links.set (m : Links) (k v : GoString) : Links :=
  if m.any (fun e => e.1 == k) then m.map (fun e => if e.1 == k then (k, v) else e)
  else m ++ [(k, v)]

/-- The keys of a mapping. -/
def Links.keys (m : Links) : List GoString := m.map Prod.fst

/-- Go `error` values produced or passed on by the adapters. -/
inductive GoError where
  /-- The value of `errors.New(msg)`. -/
  | errorsNew (msg : GoString)
  /-- The `*strconv.NumError` of `strconv.ParseInt` for a malformed input. -/
  | numSyntax (input : GoString)
  /-- The `*strconv.NumError` of `strconv.ParseInt` for a value out of range. -/
  | numRange (input : GoString)
  /-- An error returned by a request or an API client. -/
  | upstream (msg : GoString)
  deriving DecidableEq, Repr

/-- What a call of an adapter does: it returns the pair `(map, error)`, or it
stops with a run-time panic (an index out of range). -/
inductive Outcome where
  | returned (links : Option Links) (err : Option GoError)
  | panicked
  deriving DecidableEq, Repr

/-! ## Direct-rewrite adapters -/

/-- `getTistoryUrls`, lines 539-544. -/
def getTistoryUrls (link : GoString) : Outcome :=
  let link := if !HasSuffix link "?original".toList then link ++ "?original".toList else link
  .returned (some [(link, [])]) none

/-- The URL computed by `getImgurSingleUrls`, lines 282-284. -/
def imgurSingleUrl (url : GoString) : GoString :=
  let url := replaceScan subredditAt [] 0 url
  let url := Replace url "imgur.com/".toList "imgur.com/download/".toList
  let url := Replace url ".gifv".toList []
  url

/-- `getImgurSingleUrls`, lines 281-286. -/
def getImgurSingleUrls (url : GoString) : Outcome :=
  .returned (some [(imgurSingleUrl url, [])]) none

/-- `getLegacyTistoryUrls`, lines 546-549. -/
def getLegacyTistoryUrls (link : GoString) : Outcome :=
  let link := Replace link "/image/".toList "/original/".toList
  .returned (some [(link, [])]) none

/-! ## The environment of the adapters -/

/-- A compiled regular expression of the repository (`RegexpUrl...`).  The
patterns are declared outside `parse.go`, so an expression is given by what
`FindStringSubmatch` returns: the whole match followed by the capture groups,
or the empty (`nil`) slice when the input does not match. -/
structure Regexp where
  FindStringSubmatch : GoString → List GoString

/-- `re.MatchString(s)`: whether the expression has a match in `s`. -/
def Regexp.MatchString (re : Regexp) (s : GoString) : Bool :=
  !(re.FindStringSubmatch s).isEmpty

/-- The request `Files.List().Q(..).Fields(..).PageSize(..)[.PageToken(..)].Do()`
of the Drive client. -/
structure FilesListCall where
  Q : GoString
  Fields : GoString
  PageSize : Int
  PageToken : Option GoString
  deriving DecidableEq, Repr

/-- A call that leaves the adapter. -/
inductive Event where
  /-- The request of `http.Get(url)`. -/
  | httpGet (url : GoString)
  /-- The request of `getJSON(url, target)`. -/
  | getJSON (url : GoString)
  /-- The request of `twitterClient.GetTweet(id, nil)`. -/
  | getTweet (id : Int)
  /-- The re-submission `getDownloadLinks(url, channelID)`. -/
  | getDownloadLinks (url channelID : GoString)
  /-- A list request to the Drive API. -/
  | filesList (call : FilesListCall)
  deriving DecidableEq, Repr

/-- `anaconda.Variant`: `Bitrate` is a Go `int`, the two other fields are
strings; the zero value has bitrate 0 and empty strings. -/
structure Variant where
  Bitrate : Int
  ContentType : GoString
  Url : GoString
  deriving DecidableEq, Repr

/-- `anaconda.EntityMedia`, with the fields that the adapter reads. -/
structure EntityMedia where
  Media_url_https : GoString
  Variants : List Variant
  deriving DecidableEq, Repr

/-- `anaconda.Tweet`, with the fields that the adapter reads:
`ExtendedEntities.Media` and the `Expanded_url` of each of `Entities.Urls`. -/
structure Tweet where
  Media : List EntityMedia
  Urls : List GoString
  deriving DecidableEq, Repr

/-- `*anaconda.TwitterApi`: the answer of `GetTweet(id, nil)`. -/
structure TwitterApi where
  GetTweet : Int → Except GoError Tweet

/-- `FlickrPhotoSizeObject`, lines 376-383. -/
structure FlickrPhotoSizeObject where
  Label : GoString
  Width : Int
  Height : Int
  Source : GoString
  URL : GoString
  Media : GoString
  deriving DecidableEq, Repr

/-- Everything outside `parse.go` that the adapters consult. -/
structure Env where
  /-- The package variable `twitterClient`; `none` is `nil`. -/
  twitterClient : Option TwitterApi
  /-- The value of `config.Credentials.FlickrApiKey`. -/
  FlickrApiKey : GoString
  RegexpUrlTwitterStatus : Regexp
  RegexpUrlFlickrPhoto : Regexp
  RegexpUrlFlickrAlbum : Regexp
  /-- The answer of `http.Get(url)`: the final URL `result.Request.URL.String()`
  of the response, or the text of the error. -/
  httpGet : GoString → Except GoString GoString
  /-- The `Sizes.Size` list of `flickrPhoto` after `getJSON(url, flickrPhoto)`;
  empty when the request or the decoding fails and the object keeps its zero
  value. -/
  getJSONFlickrSizes : GoString → List FlickrPhotoSizeObject
  /-- The `ID` of every `Photoset.Photo` of `flickrAlbum` after
  `getJSON(url, flickrAlbum)`; empty when the request or the decoding fails. -/
  getJSONFlickrAlbum : GoString → List GoString
  /-- The mapping returned by `getDownloadLinks(url, channelID)`. -/
  getDownloadLinks : GoString → GoString → Links

/-! ## Twitter -/

/-- The zero value of `anaconda.Variant`. -/
def Variant.zero : Variant := ⟨0, [], []⟩

/-- The selection loop of lines 53-58: `lastVideoVariant` starts as the zero
value and is replaced by every variant whose bitrate is not below its own. -/
def selectVideoVariant (variants : List Variant) : Variant :=
  variants.foldl
    (fun lastVideoVariant videoVariant =>
      if videoVariant.Bitrate ≥ lastVideoVariant.Bitrate then videoVariant
      else lastVideoVariant)
    Variant.zero

/-- The loop `for k, v := range foundUrls { links[k] = v }`. -/
def Links.merge (links foundUrls : Links) : Links :=
  foundUrls.foldl (fun l e => l.set e.1 e.2) links

/-- The digit loop of `strconv.ParseUint(s, 10, 64)`. -/
def parseUintLoop (input : GoString) : GoString → Nat → Except GoError Nat
  | [], n => .ok n
  | c :: cs, n =>
    if '0' ≤ c ∧ c ≤ '9' then
      if n ≥ (2 ^ 64 - 1) / 10 + 1 then .error (.numRange input)
      else if n * 10 + (c.toNat - 48) > 2 ^ 64 - 1 then .error (.numRange input)
      else parseUintLoop input cs (n * 10 + (c.toNat - 48))
    else .error (.numSyntax input)

/-- `strconv.ParseInt(s, 10, 64)`. -/
def ParseInt (s : GoString) : Except GoError Int :=
  match s with
  | [] => .error (.numSyntax s)
  | c :: cs =>
    let neg := c == '-'
    let body := if c == '+' || c == '-' then cs else c :: cs
    if body = [] then .error (.numSyntax s)
    else
      match parseUintLoop s body 0 with
      | .error e => .error e
      | .ok un =>
        if !neg && un ≥ 2 ^ 63 then .error (.numRange s)
        else if neg && un > 2 ^ 63 then .error (.numRange s)
        else .ok (if neg then -(un : Int) else (un : Int))

/-- The loop over `tweet.ExtendedEntities.Media`, lines 51-68. -/
def twitterMediaLoop (env : Env) (channelID : GoString) :
    List EntityMedia → Links → List Event → Links × List Event
  | [], links, trace => (links, trace)
  | tweetMedia :: rest, links, trace =>
    if tweetMedia.Variants.length > 0 then
      let lastVideoVariant := selectVideoVariant tweetMedia.Variants
      if lastVideoVariant.Url ≠ [] then
        twitterMediaLoop env channelID rest (links.set lastVideoVariant.Url []) trace
      else twitterMediaLoop env channelID rest links trace
    else
      twitterMediaLoop env channelID rest
        (links.merge (env.getDownloadLinks tweetMedia.Media_url_https channelID))
        (trace ++ [.getDownloadLinks tweetMedia.Media_url_https channelID])

/-- The loop over `tweet.Entities.Urls`, lines 69-74. -/
def twitterUrlLoop (env : Env) (channelID : GoString) :
    List GoString → Links → List Event → Links × List Event
  | [], links, trace => (links, trace)
  | expanded :: rest, links, trace =>
    twitterUrlLoop env channelID rest
      (links.merge (env.getDownloadLinks expanded channelID))
      (trace ++ [.getDownloadLinks expanded channelID])

/-- `getTwitterStatusUrls`, lines 34-77, with the trace of its calls. -/
def getTwitterStatusUrls (env : Env) (inputURL channelID : GoString) :
    Outcome × List Event :=
  match env.twitterClient with
  | none => (.returned none (some (.errorsNew "Invalid Twitter API Keys Set".toList)), [])
  | some client =>
    let ms := env.RegexpUrlTwitterStatus.FindStringSubmatch inputURL
    match ms[4]? with
    | none => (.panicked, [])
    | some m4 =>
      match ParseInt m4 with
      | .error err => (.returned none (some err), [])
      | .ok statusId =>
        match client.GetTweet statusId with
        | .error err => (.returned none (some err), [.getTweet statusId])
        | .ok tweet =>
          let (links, trace) :=
            twitterMediaLoop env channelID tweet.Media [] [.getTweet statusId]
          let (links, trace) := twitterUrlLoop env channelID tweet.Urls links trace
          (.returned (some links) none, trace)

/-! ## Flickr -/

/-- The zero value of `FlickrPhotoSizeObject`. -/
def FlickrPhotoSizeObject.zero : FlickrPhotoSizeObject := ⟨[], 0, 0, [], [], []⟩

/-- One pass of the loop body of lines 402-408. -/
def bestSizeStep (bestSize size : FlickrPhotoSizeObject) : FlickrPhotoSizeObject :=
  if bestSize.Label = [] then size
  else if size.Width > bestSize.Width ∨ size.Height > bestSize.Height then size
  else bestSize

/-- The selection loop of lines 400-409, started from the zero value. -/
def selectBestSize (sizes : List FlickrPhotoSizeObject) : FlickrPhotoSizeObject :=
  sizes.foldl bestSizeStep FlickrPhotoSizeObject.zero

/-- The request URL of lines 396-397. -/
def flickrSizesUrl (env : Env) (photoId : GoString) : GoString :=
  "https://www.flickr.com/services/rest/?format=json&nojsoncallback=1&method=".toList
    ++ "flickr.photos.getSizes".toList ++ "&api_key=".toList ++ env.FlickrApiKey
    ++ "&photo_id=".toList ++ photoId

/-- `getFlickrUrlFromPhotoId`, lines 395-411, with the trace of its call. -/
def getFlickrUrlFromPhotoId (env : Env) (photoId : GoString) : GoString × List Event :=
  let reqUrl := flickrSizesUrl env photoId
  ((selectBestSize (env.getJSONFlickrSizes reqUrl)).Source, [.getJSON reqUrl])

/-- `getFlickrPhotoUrls`, lines 413-423. -/
def getFlickrPhotoUrls (env : Env) (url : GoString) : Outcome × List Event :=
  if env.FlickrApiKey = [] then
    (.returned none (some (.errorsNew "Invalid Flickr API Key Set".toList)), [])
  else
    match (env.RegexpUrlFlickrPhoto.FindStringSubmatch url)[5]? with
    | none => (.panicked, [])
    | some photoId =>
      if photoId = [] then
        (.returned none (some (.errorsNew "Unable to get Photo ID from URL".toList)), [])
      else
        let (source, trace) := getFlickrUrlFromPhotoId env photoId
        (.returned (some [(source, [])]) none, trace)

/-- The request URL of lines 464-465. -/
def flickrAlbumUrl (env : Env) (albumId : GoString) : GoString :=
  "https://www.flickr.com/services/rest/?format=json&nojsoncallback=1&method=".toList
    ++ "flickr.photosets.getPhotos".toList ++ "&api_key=".toList ++ env.FlickrApiKey
    ++ "&photoset_id=".toList ++ albumId ++ "&per_page=500".toList

/-- The loop over `flickrAlbum.Photoset.Photo`, lines 469-471. -/
def flickrAlbumLoop (env : Env) : List GoString → Links → List Event → Links × List Event
  | [], links, trace => (links, trace)
  | photoID :: rest, links, trace =>
    let (source, t) := getFlickrUrlFromPhotoId env photoID
    flickrAlbumLoop env rest (links.set source []) (trace ++ t)

/-- `getFlickrAlbumUrls`, lines 452-473. -/
def getFlickrAlbumUrls (env : Env) (url : GoString) : Outcome × List Event :=
  if env.FlickrApiKey = [] then
    (.returned none (some (.errorsNew "Invalid Flickr API Key Set".toList)), [])
  else
    match (env.RegexpUrlFlickrAlbum.FindStringSubmatch url)[9]? with
    | none =>
      -- `len(matches) < 10`
      (.returned none (some (.errorsNew "Unable to find Flickr Album ID in URL".toList)), [])
    | some albumId =>
      if albumId = [] then
        (.returned none (some (.errorsNew "Unable to find Flickr Album ID in URL".toList)), [])
      else if albumId = [] then
        (.returned none (some (.errorsNew "Unable to get Album ID from URL".toList)), [])
      else
        let reqUrl := flickrAlbumUrl env albumId
        let (links, trace) :=
          flickrAlbumLoop env (env.getJSONFlickrAlbum reqUrl) [] [.getJSON reqUrl]
        (.returned (some links) none, trace)

/-- `getFlickrAlbumShortUrls`, lines 475-484. -/
def getFlickrAlbumShortUrls (env : Env) (url : GoString) : Outcome × List Event :=
  match env.httpGet url with
  | .error msg =>
    (.returned none (some (.errorsNew
      ("Error getting long URL from shortened Flickr Album URL: ".toList ++ msg))),
     [.httpGet url])
  | .ok finalUrl =>
    if env.RegexpUrlFlickrAlbum.MatchString finalUrl then
      let (outcome, trace) := getFlickrAlbumUrls env finalUrl
      (outcome, .httpGet url :: trace)
    else
      (.returned none (some (.errorsNew
        "Encountered invalid URL while trying to get long URL from short Flickr Album URL".toList)),
       [.httpGet url])

/-! ## Google Drive -/

/-- `drive.File`, with the field requested by `files(id)`. -/
structure DriveFile where
  Id : GoString
  deriving DecidableEq, Repr

/-- `drive.FileList`: one page of a listing. -/
structure FileList where
  Files : List DriveFile
  NextPageToken : GoString
  deriving DecidableEq, Repr

/-- The package variable `DriveService`: its `BasePath` and the answers that
the listing API gives to the successive list requests, in the order of the
requests.  A request made after the last answer fails. -/
structure DriveService where
  BasePath : GoString
  answers : List (Except GoError FileList)

/-- The error of a list request that the API does not answer. -/
def driveNoAnswer : GoError := .upstream "no response".toList

/-- The query of line 507. -/
def driveQuery (googleDriveFolderID : GoString) : GoString :=
  "\"".toList ++ googleDriveFolderID ++ "\" in parents".toList

/-- The field selection of line 508. -/
def driveFields : GoString := "nextPageToken, files(id)".toList

/-- The loop of lines 516-519 over the files of the first page. -/
def driveFirstPageLinks (files : List DriveFile) (links : Links) : Links :=
  files.foldl
    (fun l file => l.set ("https://drive.google.com/uc?export=download&id=".toList ++ file.Id) [])
    links

/-- The loop of lines 529-531 over the files of a later page. -/
def driveNextPageLinks (files : List DriveFile) (links : Links) : Links :=
  files.foldl (fun l file => l.set file.Id []) links

/-- The loop of lines 521-532: as long as the last page carries a token, the
next page is requested with it and the next answer of the API is consumed. -/
def driveDrain (q : GoString) :
    List (Except GoError FileList) → FileList → Links → List Event → Outcome × List Event
  | [], result, links, trace =>
    if result.NextPageToken = [] then (.returned (some links) none, trace)
    else
      (.returned none (some driveNoAnswer),
       trace ++ [.filesList ⟨q, driveFields, 1000, some result.NextPageToken⟩])
  | .error err :: _, result, links, trace =>
    if result.NextPageToken = [] then (.returned (some links) none, trace)
    else
      (.returned none (some err),
       trace ++ [.filesList ⟨q, driveFields, 1000, some result.NextPageToken⟩])
  | .ok next :: rest, result, links, trace =>
    if result.NextPageToken = [] then (.returned (some links) none, trace)
    else
      driveDrain q rest next (driveNextPageLinks next.Files links)
        (trace ++ [.filesList ⟨q, driveFields, 1000, some result.NextPageToken⟩])

/-- `getGoogleDriveFolderUrls`, lines 495-534, with the trace of its requests. -/
def getGoogleDriveFolderUrls (RegexpUrlGoogleDriveFolder : Regexp) (service : DriveService)
    (url : GoString) : Outcome × List Event :=
  match (RegexpUrlGoogleDriveFolder.FindStringSubmatch url)[3]? with
  | none =>
    -- `len(matches) < 4`
    (.returned none (some (.errorsNew "unable to find google drive folder ID in link".toList)),
     [])
  | some googleDriveFolderID =>
    if googleDriveFolderID = [] then
      (.returned none (some (.errorsNew "unable to find google drive folder ID in link".toList)),
       [])
    else if service.BasePath = [] then
      (.returned none (some (.errorsNew "please set up google credentials".toList)), [])
    else
      let q := driveQuery googleDriveFolderID
      let call : Event := .filesList ⟨q, driveFields, 1000, none⟩
      match service.answers with
      | [] => (.returned none (some driveNoAnswer), [call])
      | .error err :: _ => (.returned none (some err), [call])
      | .ok result :: rest =>
        driveDrain q rest result (driveFirstPageLinks result.Files []) [call]

/-! ## Tistory behind the CDN -/

/-- The test `ishex` of `net/url`. -/
def ishex (c : Char) : Bool :=
  ('0' ≤ c && c ≤ '9') || ('a' ≤ c && c ≤ 'f') || ('A' ≤ c && c ≤ 'F')

/-- The value `unhex` of `net/url`. -/
def unhex (c : Char) : Nat :=
  if '0' ≤ c && c ≤ '9' then c.toNat - 48
  else if 'a' ≤ c && c ≤ 'f' then c.toNat - 97 + 10
  else if 'A' ≤ c && c ≤ 'F' then c.toNat - 65 + 10
  else 0

/-- `url.QueryUnescape(s)`: `%XY` becomes the byte `0xXY`, `+` a blank; `none`
is the escape error of a `%` that two hexadecimal digits do not follow. -/
def QueryUnescape : GoString → Option GoString
  | [] => some []
  | '%' :: a :: b :: rest =>
    if ishex a && ishex b then
      (QueryUnescape rest).map (fun t => Char.ofNat (16 * unhex a + unhex b) :: t)
    else none
  | '%' :: _ => none
  | '+' :: rest => (QueryUnescape rest).map (fun t => ' ' :: t)
  | c :: rest => (QueryUnescape rest).map (fun t => c :: t)

/-- The pieces of `s` between the occurrences of `sep`. -/
def splitOn (sep : Char) : GoString → List GoString
  | [] => [[]]
  | c :: cs =>
    if c = sep then [] :: splitOn sep cs
    else
      match splitOn sep cs with
      | [] => [[c]]
      | piece :: pieces => (c :: piece) :: pieces

/-- `strings.Cut(s, sep)` for a one-character separator: the text before the
first `sep` and the text after it. -/
def Cut (s : GoString) (sep : Char) : GoString × GoString :=
  (s.takeWhile (fun c => c != sep), (s.dropWhile (fun c => c != sep)).drop 1)

/-- `url.Values`: the values of every key, in the order they were added. -/
abbrev Values := List (GoString × List GoString)

/-- The lookup `m[key]`; `none` when the key is absent. -/
def Values.get (m : Values) (key : GoString) : Option (List GoString) :=
  (m.find? (fun e => e.1 == key)).map Prod.snd

/-- The update `m[key] = append(m[key], value)`. -/
def Values.add (m : Values) (key value : GoString) : Values :=
  if m.any (fun e => e.1 == key) then
    m.map (fun e => if e.1 == key then (key, e.2 ++ [value]) else e)
  else m ++ [(key, [value])]

/-- `url.ParseQuery(query)`, its error dropped as on line 552: the pieces
between `&` are taken in turn; a piece that contains `;`, is empty, or does not
unescape is skipped; the others add the value after the first `=` under the
key before it.  (Go releases before 1.17 split at `;` as well; the two agree on
a query without `;`.  Recent releases also refuse a query of more than 10000
pieces; no such limit is modelled, and the queries evaluated below have one
or two pieces.) -/
def ParseQuery (query : GoString) : Values :=
  (splitOn '&' query).foldl
    (fun m piece =>
      if piece.contains ';' then m
      else if piece = [] then m
      else
        match QueryUnescape (Cut piece '=').1, QueryUnescape (Cut piece '=').2 with
        | some key, some value => m.add key value
        | _, _ => m)
    []

/-- `getTistoryWithCDNUrls`, lines 551-561. -/
def getTistoryWithCDNUrls (RegexpUrlTistoryLegacy : Regexp) (urlI : GoString) : Outcome :=
  let parameters := ParseQuery urlI
  match parameters.get "fname".toList with
  | some (val0 :: _) =>
    if RegexpUrlTistoryLegacy.MatchString val0 then getLegacyTistoryUrls val0
    else .returned none none
  | _ => .returned none none

/-! ## The selection rules as the specification words them -/

/-- The photo-size rule in the words of the specification: the first candidate
is the initial best, and a later candidate replaces the best only when its
width or its height is strictly larger. -/
def specBestSize : List FlickrPhotoSizeObject → Option FlickrPhotoSizeObject
  | [] => none
  | first :: later =>
    some (later.foldl
      (fun best size =>
        if size.Width > best.Width ∨ size.Height > best.Height then size else best)
      first)

/-! ## Sample inputs -/

/-- Three size variants of 100x100, 400x300 and 200x900. -/
def sampleSizes : List FlickrPhotoSizeObject :=
  [⟨"Square".toList, 100, 100, "https://live.staticflickr.com/1_s.jpg".toList, [], "photo".toList⟩,
   ⟨"Medium".toList, 400, 300, "https://live.staticflickr.com/1_m.jpg".toList, [], "photo".toList⟩,
   ⟨"Large".toList, 200, 900, "https://live.staticflickr.com/1_b.jpg".toList, [], "photo".toList⟩]

/-- An album expression: a URL under `https://www.flickr.com/photos/user/albums/`
matches, and the rest of the URL is group 9. -/
def sampleAlbumRegexp : Regexp :=
  ⟨fun url =>
    if "https://www.flickr.com/photos/user/albums/".toList.isPrefixOf url then
      [url, "s".toList, "www.".toList, "user".toList, "albums/".toList, [], [], [], [],
       url.drop 42]
    else []⟩

/-- An environment with a Flickr key and no Twitter client, in which the short
link `https://flic.kr/s/aHsk` redirects to an album of two photos. -/
def sampleEnv : Env where
  twitterClient := none
  FlickrApiKey := "KEY".toList
  RegexpUrlTwitterStatus := ⟨fun _ => []⟩
  RegexpUrlFlickrPhoto := ⟨fun _ => []⟩
  RegexpUrlFlickrAlbum := sampleAlbumRegexp
  httpGet := fun url =>
    if url = "https://flic.kr/s/aHsk".toList then
      .ok "https://www.flickr.com/photos/user/albums/72157".toList
    else .error "no such host".toList
  getJSONFlickrSizes := fun _ => sampleSizes
  getJSONFlickrAlbum := fun _ => ["1".toList, "2".toList]
  getDownloadLinks := fun _ _ => []

/-- A folder expression: a URL under `https://drive.google.com/drive/folders/`
matches, and the rest of the URL is group 3. -/
def sampleFolderRegexp : Regexp :=
  ⟨fun url =>
    if "https://drive.google.com/drive/folders/".toList.isPrefixOf url then
      [url, "s".toList, "drive/folders/".toList, url.drop 39]
    else []⟩

/-- A listing of two pages with one file each, `a` and then `b`. -/
def sampleTwoPages : DriveService :=
  ⟨"https://www.googleapis.com/drive/v3/".toList,
   [.ok ⟨[⟨"a".toList⟩], "page2".toList⟩, .ok ⟨[⟨"b".toList⟩], []⟩]⟩

/-- A listing of two pages with one file each, whose second identifier is the
download URL of the first. -/
def sampleCollidingPages : DriveService :=
  ⟨"https://www.googleapis.com/drive/v3/".toList,
   [.ok ⟨[⟨"x".toList⟩], "page2".toList⟩,
    .ok ⟨[⟨"https://drive.google.com/uc?export=download&id=x".toList⟩], []⟩]⟩

/-! ## Paginated listings -/

/-- A listing of the page `cur` followed by the pages `later` in which every
page but the last carries a next-page token and the last carries none. -/
def chained : FileList → List FileList → Bool
  | cur, [] => cur.NextPageToken == []
  | cur, next :: rest => cur.NextPageToken != [] && chained next rest

/-- The keys under which the adapter stores the files of a listing: the
download URL for a file of the first page, the identifier itself for a file
of a later page. -/
def driveStoredKeys (first : FileList) (later : List FileList) : List GoString :=
  first.Files.map (fun file => "https://drive.google.com/uc?export=download&id=".toList ++ file.Id)
    ++ later.flatMap (fun page => page.Files.map (fun file => file.Id))

/-- The file whose identifier is `n + 1` times the letter `a`. -/
def sampleFile (n : Nat) : DriveFile := ⟨List.replicate (n + 1) 'a'⟩

/-- The page of the `count` files `sampleFile lo`, `sampleFile (lo + 1)`, ...,
with the given next-page token. -/
def samplePage (lo count : Nat) (token : GoString) : FileList :=
  ⟨(List.range' lo count).map sampleFile, token⟩

/-! ## Gfycat -/

/-- `getGfycatUrls`, lines 360-374, with the trace of its request.
`strings.Split(url, "/")` is `splitOn '/' url`.  The parameter is the `Mp4URL`
of `gfycatObject.GfyItem` after `getJSON(reqUrl, gfycatObject)`; it is empty
when the request or the decoding fails and the object keeps its zero value. -/
def getGfycatUrls (getJSONGfycat : GoString → GoString) (url : GoString) :
    Outcome × List Event :=
  let parts := splitOn '/' url
  if parts.length < 3 then
    (.returned none (some (.errorsNew "Unable to parse Gfycat URL".toList)), [])
  else
    match parts[parts.length - 1]? with
    | none => (.panicked, [])
    | some gfycatId =>
      let reqUrl := "https://api.gfycat.com/v1/gfycats/".toList ++ gfycatId
      let gfycatUrl := getJSONGfycat reqUrl
      if url = [] then
        (.returned none (some (.errorsNew "Failed to read response from Gfycat".toList)),
         [.getJSON reqUrl])
      else (.returned (some [(gfycatUrl, [])]) none, [.getJSON reqUrl])


/-! ## Lemmas on the scan -/

theorem contains_eq_false_cons {c : Char} {cs sub : GoString}
    (h : Contains (c :: cs) sub = false) :
    sub.isPrefixOf (c :: cs) = false ∧ Contains cs sub = false := by
  simpa [Contains] using h

theorem contains_of_isPrefixOf {s sub : GoString} (h : sub.isPrefixOf s = true) :
    Contains s sub = true := by
  cases s with
  | nil => simpa [Contains] using h
  | cons c cs => simp [Contains, h]

theorem contains_append_left (xs : GoString) {s sub : GoString}
    (h : Contains s sub = true) : Contains (xs ++ s) sub = true := by
  induction xs with
  | nil => simpa using h
  | cons x xs ih => simp [Contains, ih]

theorem replaceScan_skip (matchAt : GoString → Option Nat) (repl : GoString)
    (xs rest : GoString) :
    replaceScan matchAt repl xs.length (xs ++ rest) = replaceScan matchAt repl 0 rest := by
  induction xs with
  | nil => rfl
  | cons x xs ih => simpa [replaceScan] using ih

/-- A scan that finds no match anywhere leaves the string as it is. -/
theorem replaceScan_eq_self (matchAt : GoString → Option Nat) (repl : GoString)
    (sub : GoString) (hm : ∀ t, matchAt t ≠ none → sub.isPrefixOf t = true) :
    ∀ s : GoString, Contains s sub = false → replaceScan matchAt repl 0 s = s := by
  intro s
  induction s with
  | nil => intro _; rfl
  | cons c cs ih =>
    intro h
    obtain ⟨h1, h2⟩ := contains_eq_false_cons h
    have hnone : matchAt (c :: cs) = none := by
      by_contra hne
      rw [hm _ hne] at h1
      exact Bool.noConfusion h1
    simp [replaceScan, hnone, ih h2]

theorem Replace_eq_self (s old new : GoString) (hold : old ≠ [])
    (h : Contains s old = false) : Replace s old new = s := by
  unfold Replace
  rw [if_neg hold]
  apply replaceScan_eq_self (literalAt old) new old _ s h
  intro t ht
  unfold literalAt at ht
  by_contra hp
  simp [hp] at ht

/-- The scan of `getLegacyTistoryUrls`. -/
theorem legacyScan_match (rest : GoString) :
    replaceScan (literalAt "/image/".toList) "/original/".toList 0 ("/image/".toList ++ rest)
      = "/original/".toList ++
          replaceScan (literalAt "/image/".toList) "/original/".toList 0 rest := by
  simp only [String.toList]
  simp [replaceScan, literalAt, List.isPrefixOf]

theorem legacyScan_nomatch (c : Char) (cs : GoString)
    (h : "/image/".toList.isPrefixOf (c :: cs) = false) :
    replaceScan (literalAt "/image/".toList) "/original/".toList 0 (c :: cs)
      = c :: replaceScan (literalAt "/image/".toList) "/original/".toList 0 cs := by
  simp only [replaceScan, literalAt, h, Bool.false_eq_true, if_false]

/-- A slash-free run followed by a slash at the head of the rewritten string
was at the head of the string before the rewrite. -/
theorem legacyScan_segment (t : GoString) (ht : ∀ ch ∈ t, ch ≠ '/') :
    ∀ s : GoString,
      (t ++ ['/']) <+: replaceScan (literalAt "/image/".toList) "/original/".toList 0 s →
      (t ++ ['/']) <+: s := by
  induction t with
  | nil =>
    intro s h
    cases s with
    | nil => simp [replaceScan] at h
    | cons c cs =>
      cases hp : "/image/".toList.isPrefixOf (c :: cs) with
      | true =>
        have hc : c = '/' := by
          simp [List.isPrefixOf] at hp
          exact hp.1.symm
        subst hc
        simp
      | false =>
        rw [legacyScan_nomatch c cs hp] at h
        simp at h ⊢
        exact h
  | cons a t ih =>
    intro s h
    have ha : a ≠ '/' := ht a (by simp)
    have ht2 : ∀ ch ∈ t, ch ≠ '/' := fun ch hch => ht ch (by simp [hch])
    cases s with
    | nil => simp [replaceScan] at h
    | cons c cs =>
      cases hp : "/image/".toList.isPrefixOf (c :: cs) with
      | true =>
        obtain ⟨rest, hrest⟩ := List.isPrefixOf_iff_prefix.mp hp
        rw [← hrest, legacyScan_match] at h
        simp at h
        exact absurd h.1 ha
      | false =>
        rw [legacyScan_nomatch c cs hp] at h
        simp only [List.cons_append, List.cons_prefix_cons] at h ⊢
        exact ⟨h.1, ih ht2 cs h.2⟩

/-- Where no two occurrences of `/image/` share a slash, the rewrite leaves no
occurrence behind. -/
theorem legacyScan_clean :
    ∀ (n : Nat) (s : GoString), s.length ≤ n →
      Contains s "/image/image/".toList = false →
      Contains (replaceScan (literalAt "/image/".toList) "/original/".toList 0 s)
        "/image/".toList = false := by
  intro n
  induction n with
  | zero =>
    intro s hlen _
    have : s = [] := List.length_eq_zero.mp (Nat.le_zero.mp hlen)
    subst this
    decide
  | succ n ih =>
    intro s hlen hs
    cases s with
    | nil => decide
    | cons c cs =>
      cases hp : "/image/".toList.isPrefixOf (c :: cs) with
      | false =>
        rw [legacyScan_nomatch c cs hp]
        have hcs := (contains_eq_false_cons hs).2
        have hrec := ih cs (by simpa using hlen) hcs
        rw [Contains, hrec, Bool.or_false]
        cases hq : "/image/".toList.isPrefixOf
            (c :: replaceScan (literalAt "/image/".toList) "/original/".toList 0 cs) with
        | false => rfl
        | true =>
          exfalso
          have hq2 := List.isPrefixOf_iff_prefix.mp hq
          simp only [String.toList, List.cons_prefix_cons] at hq2
          have hseg := legacyScan_segment "image".toList (by decide) cs hq2.2
          have : "/image/".toList.isPrefixOf (c :: cs) = true := by
            rw [List.isPrefixOf_iff_prefix]
            simp only [String.toList, List.cons_prefix_cons]
            exact ⟨hq2.1, hseg⟩
          rw [hp] at this
          exact Bool.noConfusion this
      | true =>
        obtain ⟨rest, hrest⟩ := List.isPrefixOf_iff_prefix.mp hp
        rw [← hrest, legacyScan_match]
        have hlen2 : rest.length ≤ n := by
          have : (c :: cs).length = 7 + rest.length := by rw [← hrest]; simp; omega
          omega
        have hrest2 : Contains rest "/image/image/".toList = false := by
          cases hc : Contains rest "/image/image/".toList with
          | false => rfl
          | true =>
            have := contains_append_left "/image/".toList hc
            rw [hrest, hs] at this
            exact Bool.noConfusion this
        have hrec := ih rest hlen2 hrest2
        cases hq : "image/".toList.isPrefixOf
            (replaceScan (literalAt "/image/".toList) "/original/".toList 0 rest) with
        | false =>
          simp only [String.toList] at hq hrec ⊢
          simp [Contains, List.isPrefixOf, hrec]
          exact hq
        | true =>
          exfalso
          have hseg := legacyScan_segment "image".toList (by decide) rest
            (List.isPrefixOf_iff_prefix.mp hq)
          have : "/image/image/".toList.isPrefixOf (c :: cs) = true := by
            rw [List.isPrefixOf_iff_prefix, ← hrest]
            obtain ⟨u, hu⟩ := hseg
            exact ⟨u, by rw [← hu]; rfl⟩
          have := contains_of_isPrefixOf this
          rw [hs] at this
          exact Bool.noConfusion this

/-! ## Direct-rewrite adapters: idempotence -/

/-- C4: `getTistoryUrls` is idempotent.  It returns a singleton mapping; applying
it to the key of that mapping returns the same mapping; a link that already
ends in `?original` is its own key, any other link gets the marker appended
once. -/
theorem getTistoryUrls_idempotent (link : GoString) :
    ∃ key : GoString,
      getTistoryUrls link = .returned (some [(key, [])]) none ∧
      getTistoryUrls key = getTistoryUrls link ∧
      (HasSuffix link "?original".toList = true → key = link) ∧
      (HasSuffix link "?original".toList = false → key = link ++ "?original".toList) := by
  cases h : HasSuffix link "?original".toList with
  | true =>
    refine ⟨link, ?_, rfl, fun _ => rfl, fun hf => Bool.noConfusion hf⟩
    simp only [getTistoryUrls, h, Bool.not_true, Bool.false_eq_true, if_false]
  | false =>
    have hs : HasSuffix (link ++ "?original".toList) "?original".toList = true := by
      unfold HasSuffix
      rw [List.isSuffixOf_iff_suffix]
      exact List.suffix_append _ _
    refine ⟨link ++ "?original".toList, ?_, ?_, fun ht => Bool.noConfusion ht, fun _ => rfl⟩
    · simp only [getTistoryUrls, h, Bool.not_false, if_true]
    · simp only [getTistoryUrls, h, hs, Bool.not_false, Bool.not_true, Bool.false_eq_true,
        if_true, if_false]

/-- C5 at failing inputs: the adapter rewrites `imgur.com/` without looking for
the marker it inserts.  The key returned for `https://imgur.com/abc` is
`https://imgur.com/download/abc`, and resolving that key again returns a
different mapping, with a second `download/` segment; the same happens to the
key returned for `https://i.imgur.com/abc.gifv`. -/
theorem getImgurSingleUrls_not_idempotent :
    getImgurSingleUrls "https://imgur.com/abc".toList
      = .returned (some [("https://imgur.com/download/abc".toList, [])]) none ∧
    getImgurSingleUrls "https://imgur.com/download/abc".toList
      = .returned (some [("https://imgur.com/download/download/abc".toList, [])]) none ∧
    getImgurSingleUrls "https://imgur.com/download/abc".toList
      ≠ getImgurSingleUrls "https://imgur.com/abc".toList ∧
    getImgurSingleUrls "https://i.imgur.com/abc.gifv".toList
      = .returned (some [("https://i.imgur.com/download/abc".toList, [])]) none ∧
    getImgurSingleUrls "https://i.imgur.com/download/abc".toList
      = .returned (some [("https://i.imgur.com/download/download/abc".toList, [])]) none := by
  decide

/-- C6, as stated, fails: two occurrences of `/image/` that share a slash are
not both rewritten, so the key returned for `.../image/image/ABC` still holds
`/image/` and resolving it again returns a different mapping. -/
theorem getLegacyTistoryUrls_not_idempotent :
    getLegacyTistoryUrls "http://cfile1.uf.tistory.com/image/image/ABC".toList
      = .returned (some [("http://cfile1.uf.tistory.com/original/image/ABC".toList, [])])
          none ∧
    getLegacyTistoryUrls "http://cfile1.uf.tistory.com/original/image/ABC".toList
      = .returned (some [("http://cfile1.uf.tistory.com/original/original/ABC".toList, [])])
          none ∧
    getLegacyTistoryUrls "http://cfile1.uf.tistory.com/original/image/ABC".toList
      ≠ getLegacyTistoryUrls "http://cfile1.uf.tistory.com/image/image/ABC".toList := by
  decide

/-- C6, amended: for every link in which no two occurrences of `/image/` share
a slash (the link does not contain `/image/image/`), the key returned by
`getLegacyTistoryUrls` contains no `/image/`, and applying the adapter to that
key returns the same singleton mapping. -/
theorem getLegacyTistoryUrls_idempotent_of_separate (link : GoString)
    (h : Contains link "/image/image/".toList = false) :
    ∃ key : GoString,
      getLegacyTistoryUrls link = .returned (some [(key, [])]) none ∧
      Contains key "/image/".toList = false ∧
      getLegacyTistoryUrls key = getLegacyTistoryUrls link := by
  have hne : "/image/".toList ≠ [] := by decide
  have hkey : Replace link "/image/".toList "/original/".toList
      = replaceScan (literalAt "/image/".toList) "/original/".toList 0 link := by
    unfold Replace
    rw [if_neg hne]
  have hclean : Contains (Replace link "/image/".toList "/original/".toList)
      "/image/".toList = false := by
    rw [hkey]
    exact legacyScan_clean link.length link (Nat.le_refl _) h
  refine ⟨Replace link "/image/".toList "/original/".toList, rfl, hclean, ?_⟩
  unfold getLegacyTistoryUrls
  simp only []
  rw [Replace_eq_self _ _ _ hne hclean]

/-- The amended C6 at `http://cfile1.uf.tistory.com/image/ABC`. -/
theorem getLegacyTistoryUrls_idempotent_of_separate_witness :
    Contains "http://cfile1.uf.tistory.com/image/ABC".toList "/image/image/".toList = false ∧
    ∃ key : GoString,
      getLegacyTistoryUrls "http://cfile1.uf.tistory.com/image/ABC".toList
        = .returned (some [(key, [])]) none ∧
      Contains key "/image/".toList = false ∧
      getLegacyTistoryUrls key
        = getLegacyTistoryUrls "http://cfile1.uf.tistory.com/image/ABC".toList :=
  ⟨by decide,
   getLegacyTistoryUrls_idempotent_of_separate
     "http://cfile1.uf.tistory.com/image/ABC".toList (by decide)⟩

/-! ## Twitter: the bitrate selection -/

/-- The loop of `selectVideoVariant` from any starting value: the result is the
starting value or a member, its bitrate bounds the starting one and every
member, and it is a member as soon as one member reaches the starting bitrate. -/
theorem selectVideoVariant_fold (variants : List Variant) :
    ∀ start : Variant,
      (List.foldl (fun lastVideoVariant videoVariant =>
          if videoVariant.Bitrate ≥ lastVideoVariant.Bitrate then videoVariant
          else lastVideoVariant) start variants = start ∨
        List.foldl (fun lastVideoVariant videoVariant =>
          if videoVariant.Bitrate ≥ lastVideoVariant.Bitrate then videoVariant
          else lastVideoVariant) start variants ∈ variants) ∧
      start.Bitrate ≤ (List.foldl (fun lastVideoVariant videoVariant =>
          if videoVariant.Bitrate ≥ lastVideoVariant.Bitrate then videoVariant
          else lastVideoVariant) start variants).Bitrate ∧
      (∀ v ∈ variants, v.Bitrate ≤ (List.foldl (fun lastVideoVariant videoVariant =>
          if videoVariant.Bitrate ≥ lastVideoVariant.Bitrate then videoVariant
          else lastVideoVariant) start variants).Bitrate) ∧
      ((∃ v ∈ variants, start.Bitrate ≤ v.Bitrate) →
        List.foldl (fun lastVideoVariant videoVariant =>
          if videoVariant.Bitrate ≥ lastVideoVariant.Bitrate then videoVariant
          else lastVideoVariant) start variants ∈ variants) := by
  induction variants with
  | nil =>
    intro start
    simp
  | cons x xs ih =>
    intro start
    simp only [List.foldl_cons]
    by_cases hx : x.Bitrate ≥ start.Bitrate
    · rw [if_pos hx]
      obtain ⟨h1, h2, h3, _⟩ := ih x
      have hmem : List.foldl (fun lastVideoVariant videoVariant =>
          if videoVariant.Bitrate ≥ lastVideoVariant.Bitrate then videoVariant
          else lastVideoVariant) x xs ∈ x :: xs := by
        rcases h1 with h | h
        · rw [h]; exact List.mem_cons_self _ _
        · exact List.mem_cons_of_mem _ h
      refine ⟨Or.inr hmem, le_trans hx h2, ?_, fun _ => hmem⟩
      intro v hv
      rcases List.mem_cons.mp hv with h | h
      · rw [h]; exact h2
      · exact h3 v h
    · rw [if_neg hx]
      obtain ⟨h1, h2, h3, h4⟩ := ih start
      refine ⟨?_, h2, ?_, ?_⟩
      · rcases h1 with h | h
        · exact Or.inl h
        · exact Or.inr (List.mem_cons_of_mem _ h)
      · intro v hv
        rcases List.mem_cons.mp hv with h | h
        · rw [h]; exact le_trans (le_of_lt (not_le.mp hx)) h2
        · exact h3 v h
      · rintro ⟨v, hv, hle⟩
        rcases List.mem_cons.mp hv with h | h
        · rw [h] at hle; exact absurd hle hx
        · exact List.mem_cons_of_mem _ (h4 ⟨v, h, hle⟩)

/-- C1, as stated, fails: the loop starts from the zero-valued variant, whose
bitrate is 0, so for a non-empty list whose only bitrate is negative the
chosen variant is that zero value and not a member of the list. -/
theorem selectVideoVariant_not_member :
    ([⟨-1, "video/mp4".toList, "https://video.twimg.com/a.mp4".toList⟩] : List Variant) ≠ [] ∧
    selectVideoVariant [⟨-1, "video/mp4".toList, "https://video.twimg.com/a.mp4".toList⟩]
      = Variant.zero ∧
    selectVideoVariant [⟨-1, "video/mp4".toList, "https://video.twimg.com/a.mp4".toList⟩]
      ∉ ([⟨-1, "video/mp4".toList, "https://video.twimg.com/a.mp4".toList⟩] : List Variant) := by
  decide

/-- C1, amended: for every list of video variants that holds a variant of
non-negative bitrate, the variant chosen by the selection loop is a member of
the list and no variant of the list has a bitrate greater than its own. -/
theorem selectVideoVariant_highest (variants : List Variant)
    (h : ∃ v ∈ variants, 0 ≤ v.Bitrate) :
    selectVideoVariant variants ∈ variants ∧
    ∀ v ∈ variants, v.Bitrate ≤ (selectVideoVariant variants).Bitrate := by
  obtain ⟨_, _, h3, h4⟩ := selectVideoVariant_fold variants Variant.zero
  exact ⟨h4 h, h3⟩

/-- The amended C1 at the bitrates 100, 500, 300: the variant of bitrate 500 is
chosen. -/
theorem selectVideoVariant_highest_witness :
    selectVideoVariant
        [⟨100, "video/mp4".toList, "a".toList⟩, ⟨500, "video/mp4".toList, "b".toList⟩,
         ⟨300, "video/mp4".toList, "c".toList⟩]
      = ⟨500, "video/mp4".toList, "b".toList⟩ ∧
    (selectVideoVariant
        [⟨100, "video/mp4".toList, "a".toList⟩, ⟨500, "video/mp4".toList, "b".toList⟩,
         ⟨300, "video/mp4".toList, "c".toList⟩]
      ∈ ([⟨100, "video/mp4".toList, "a".toList⟩, ⟨500, "video/mp4".toList, "b".toList⟩,
         ⟨300, "video/mp4".toList, "c".toList⟩] : List Variant) ∧
     ∀ v ∈ ([⟨100, "video/mp4".toList, "a".toList⟩, ⟨500, "video/mp4".toList, "b".toList⟩,
         ⟨300, "video/mp4".toList, "c".toList⟩] : List Variant),
       v.Bitrate ≤ (selectVideoVariant
        [⟨100, "video/mp4".toList, "a".toList⟩, ⟨500, "video/mp4".toList, "b".toList⟩,
         ⟨300, "video/mp4".toList, "c".toList⟩]).Bitrate) :=
  ⟨by decide,
   selectVideoVariant_highest _ ⟨⟨100, "video/mp4".toList, "a".toList⟩, by decide, by decide⟩⟩

/-! ## Flickr: the size selection -/

/-- Once the best has a label, the loop body is the rule of the specification,
and the best keeps having a label while every candidate has one. -/
theorem bestSize_fold (later : List FlickrPhotoSizeObject) :
    ∀ best : FlickrPhotoSizeObject, best.Label ≠ [] → (∀ s ∈ later, s.Label ≠ []) →
      later.foldl bestSizeStep best
        = later.foldl
            (fun best size =>
              if size.Width > best.Width ∨ size.Height > best.Height then size else best)
            best := by
  induction later with
  | nil => intro best _ _; rfl
  | cons x xs ih =>
    intro best hb hl
    have hx : x.Label ≠ [] := hl x (List.mem_cons_self _ _)
    have hxs : ∀ s ∈ xs, s.Label ≠ [] := fun s hs => hl s (List.mem_cons_of_mem _ hs)
    simp only [List.foldl_cons]
    have hstep : bestSizeStep best x
        = if x.Width > best.Width ∨ x.Height > best.Height then x else best := by
      unfold bestSizeStep
      rw [if_neg hb]
    rw [hstep]
    apply ih _ _ hxs
    split
    · exact hx
    · exact hb

/-- C2, as stated, fails: the loop takes an empty label for "no best yet", so
a first candidate without a label is replaced by the next candidate although
that one is smaller in both dimensions; the rule of the specification keeps
the first. -/
theorem selectBestSize_unlabelled_first :
    specBestSize [⟨[], 500, 500, "a".toList, [], []⟩, ⟨"Small".toList, 100, 100, "b".toList, [], []⟩]
      = some ⟨[], 500, 500, "a".toList, [], []⟩ ∧
    selectBestSize [⟨[], 500, 500, "a".toList, [], []⟩, ⟨"Small".toList, 100, 100, "b".toList, [], []⟩]
      = ⟨"Small".toList, 100, 100, "b".toList, [], []⟩ ∧
    (selectBestSize
      [⟨[], 500, 500, "a".toList, [], []⟩, ⟨"Small".toList, 100, 100, "b".toList, [], []⟩]).Source
      ≠ "a".toList := by
  decide

/-- C2, amended: for every non-empty list of size variants returned by the API
in which every variant has a non-empty label, the source returned by
`getFlickrUrlFromPhotoId` is that of the best of the specification's rule: the
first candidate is the initial best, and it is replaced by a later candidate
only when that candidate is strictly wider or strictly higher (a left fold
over the tail seeded with the first element). -/
theorem getFlickrUrlFromPhotoId_best (env : Env) (photoId : GoString)
    (hne : env.getJSONFlickrSizes (flickrSizesUrl env photoId) ≠ [])
    (hlabel : ∀ s ∈ env.getJSONFlickrSizes (flickrSizesUrl env photoId), s.Label ≠ []) :
    ∃ best : FlickrPhotoSizeObject,
      specBestSize (env.getJSONFlickrSizes (flickrSizesUrl env photoId)) = some best ∧
      getFlickrUrlFromPhotoId env photoId
        = (best.Source, [.getJSON (flickrSizesUrl env photoId)]) := by
  unfold getFlickrUrlFromPhotoId
  simp only []
  generalize env.getJSONFlickrSizes (flickrSizesUrl env photoId) = sizes at hne hlabel
  cases sizes with
  | nil => exact absurd rfl hne
  | cons first later =>
    have hfirst : first.Label ≠ [] := hlabel first (List.mem_cons_self _ _)
    have hlater : ∀ s ∈ later, s.Label ≠ [] :=
      fun s hs => hlabel s (List.mem_cons_of_mem _ hs)
    refine ⟨_, rfl, ?_⟩
    have hseed : bestSizeStep FlickrPhotoSizeObject.zero first = first := by
      simp [bestSizeStep, FlickrPhotoSizeObject.zero]
    unfold selectBestSize
    rw [List.foldl_cons, hseed, bestSize_fold later first hfirst hlater]

/-- The amended C2 at the sizes 100x100, 400x300, 200x900: the size 200x900 is
selected and its source is returned. -/
theorem getFlickrUrlFromPhotoId_best_witness :
    selectBestSize sampleSizes
      = ⟨"Large".toList, 200, 900, "https://live.staticflickr.com/1_b.jpg".toList, [],
          "photo".toList⟩ ∧
    (getFlickrUrlFromPhotoId sampleEnv "1".toList).1
      = "https://live.staticflickr.com/1_b.jpg".toList ∧
    ∃ best : FlickrPhotoSizeObject,
      specBestSize (sampleEnv.getJSONFlickrSizes (flickrSizesUrl sampleEnv "1".toList))
        = some best ∧
      getFlickrUrlFromPhotoId sampleEnv "1".toList
        = (best.Source, [.getJSON (flickrSizesUrl sampleEnv "1".toList)]) :=
  ⟨by decide, by decide,
   getFlickrUrlFromPhotoId_best sampleEnv "1".toList (by decide) (by decide)⟩

/-! ## Flickr: the short link -/

/-- C8: when the GET of a short URL succeeds with final URL `u`, then, if `u`
matches the album expression, `getFlickrAlbumShortUrls` returns what
`getFlickrAlbumUrls u` returns (the same mapping or the same error) and issues,
after its own GET, the requests of that call; if `u` does not match, it
returns its own error and no mapping, and its GET is the only request. -/
theorem getFlickrAlbumShortUrls_hands_off (env : Env) (url u : GoString)
    (hget : env.httpGet url = .ok u) :
    (env.RegexpUrlFlickrAlbum.MatchString u = true →
      (getFlickrAlbumShortUrls env url).1 = (getFlickrAlbumUrls env u).1 ∧
      (getFlickrAlbumShortUrls env url).2 = .httpGet url :: (getFlickrAlbumUrls env u).2) ∧
    (env.RegexpUrlFlickrAlbum.MatchString u = false →
      getFlickrAlbumShortUrls env url
        = (.returned none (some (.errorsNew
            "Encountered invalid URL while trying to get long URL from short Flickr Album URL".toList)),
           [.httpGet url])) := by
  constructor
  · intro hm
    unfold getFlickrAlbumShortUrls
    rw [hget]
    simp [hm]
  · intro hm
    unfold getFlickrAlbumShortUrls
    rw [hget]
    simp only [hm, Bool.false_eq_true, if_false]

/-- C8 at the short link of the sample environment, which redirects to a
matching album URL. -/
theorem getFlickrAlbumShortUrls_hands_off_witness :
    sampleEnv.httpGet "https://flic.kr/s/aHsk".toList
      = .ok "https://www.flickr.com/photos/user/albums/72157".toList ∧
    sampleEnv.RegexpUrlFlickrAlbum.MatchString
      "https://www.flickr.com/photos/user/albums/72157".toList = true ∧
    (getFlickrAlbumShortUrls sampleEnv "https://flic.kr/s/aHsk".toList).1
      = .returned (some [("https://live.staticflickr.com/1_b.jpg".toList, [])]) none ∧
    (getFlickrAlbumShortUrls sampleEnv "https://flic.kr/s/aHsk".toList).1
      = (getFlickrAlbumUrls sampleEnv
          "https://www.flickr.com/photos/user/albums/72157".toList).1 :=
  ⟨rfl, by decide, by decide,
   ((getFlickrAlbumShortUrls_hands_off sampleEnv "https://flic.kr/s/aHsk".toList
      "https://www.flickr.com/photos/user/albums/72157".toList rfl).1
        (by decide)).1⟩

/-! ## Missing credentials -/

/-- C9: without its credential an adapter returns its configuration error and
no mapping, for every input URL, whatever the URL expressions find in it, and
its trace of requests is empty: `getTwitterStatusUrls` when `twitterClient` is
`nil`, `getFlickrPhotoUrls` and `getFlickrAlbumUrls` when the Flickr API key
is empty. -/
theorem missing_credential_fails_first (env : Env) (url channelID : GoString) :
    (env.twitterClient.isNone = true →
      getTwitterStatusUrls env url channelID
        = (.returned none (some (.errorsNew "Invalid Twitter API Keys Set".toList)), [])) ∧
    (env.FlickrApiKey = [] →
      getFlickrPhotoUrls env url
        = (.returned none (some (.errorsNew "Invalid Flickr API Key Set".toList)), []) ∧
      getFlickrAlbumUrls env url
        = (.returned none (some (.errorsNew "Invalid Flickr API Key Set".toList)), [])) := by
  constructor
  · intro h
    unfold getTwitterStatusUrls
    cases hc : env.twitterClient with
    | none => rfl
    | some client => rw [hc] at h; exact Bool.noConfusion h
  · intro h
    constructor
    · unfold getFlickrPhotoUrls
      rw [if_pos h]
    · unfold getFlickrAlbumUrls
      rw [if_pos h]

/-- With a client, a URL in which the status expression finds nothing makes
`matches[4]` panic: the check of the client comes before the parsing. -/
theorem getTwitterStatusUrls_no_match (env : Env) (client : TwitterApi)
    (url channelID : GoString) (hc : env.twitterClient = some client)
    (hm : env.RegexpUrlTwitterStatus.FindStringSubmatch url = []) :
    getTwitterStatusUrls env url channelID = (.panicked, []) := by
  unfold getTwitterStatusUrls
  rw [hc]
  simp only [hm]
  rfl

/-! ## Tistory behind the CDN -/

/-- C7 at a failing input: `url.ParseQuery` is given the whole URL, so when
`fname` is the first parameter its key is the URL up to and including
`?fname`, the lookup of `fname` finds nothing and the adapter returns neither
a mapping nor an error, whatever the legacy expression matches.  With another
parameter before it, `fname` is found and its value is rewritten. -/
theorem getTistoryWithCDNUrls_fname_first (RegexpUrlTistoryLegacy : Regexp) :
    getTistoryWithCDNUrls RegexpUrlTistoryLegacy
        "https://img1.daumcdn.net/thumb/R1920x0/?fname=http%3A%2F%2Fcfile1.uf.tistory.com%2Fimage%2FABC".toList
      = .returned none none ∧
    (RegexpUrlTistoryLegacy.MatchString "http://cfile1.uf.tistory.com/image/ABC".toList = true →
      getTistoryWithCDNUrls RegexpUrlTistoryLegacy
          "https://img1.daumcdn.net/thumb/R1920x0/?scode=mtistory&fname=http%3A%2F%2Fcfile1.uf.tistory.com%2Fimage%2FABC".toList
        = .returned (some [("http://cfile1.uf.tistory.com/original/ABC".toList, [])]) none) := by
  have h1 : (ParseQuery
      "https://img1.daumcdn.net/thumb/R1920x0/?fname=http%3A%2F%2Fcfile1.uf.tistory.com%2Fimage%2FABC".toList).get
        "fname".toList = none := by decide
  have h2 : (ParseQuery
      "https://img1.daumcdn.net/thumb/R1920x0/?scode=mtistory&fname=http%3A%2F%2Fcfile1.uf.tistory.com%2Fimage%2FABC".toList).get
        "fname".toList = some ["http://cfile1.uf.tistory.com/image/ABC".toList] := by decide
  have h3 : getLegacyTistoryUrls "http://cfile1.uf.tistory.com/image/ABC".toList
      = .returned (some [("http://cfile1.uf.tistory.com/original/ABC".toList, [])]) none := by
    decide
  constructor
  · unfold getTistoryWithCDNUrls
    simp only [h1]
  · intro hm
    unfold getTistoryWithCDNUrls
    simp only [h2, hm, if_true, h3]

/-! ## Google Drive -/

/-- C10 at a failing input: for a listing of two pages, with file `a` on the
first and file `b` on the second, the mapping has the download URL of `a` and
the bare identifier `b` as its keys; `b` does not start with the download
prefix. -/
theorem getGoogleDriveFolderUrls_bare_key :
    (getGoogleDriveFolderUrls sampleFolderRegexp sampleTwoPages
        "https://drive.google.com/drive/folders/F1".toList).1
      = .returned (some [("https://drive.google.com/uc?export=download&id=a".toList, []),
          ("b".toList, [])]) none ∧
    "https://drive.google.com/uc?export=download&id=".toList.isPrefixOf "b".toList = false := by
  decide

/-- C3 at a failing input: for a listing of two pages whose two file
identifiers, `x` and the download URL of `x`, are distinct, the adapter issues
two list requests and returns a mapping of one entry, not two: the bare
identifier of the second page is the key already built for the first. -/
theorem getGoogleDriveFolderUrls_collision :
    ("x".toList ≠ "https://drive.google.com/uc?export=download&id=x".toList) ∧
    (getGoogleDriveFolderUrls sampleFolderRegexp sampleCollidingPages
        "https://drive.google.com/drive/folders/F1".toList).1
      = .returned (some [("https://drive.google.com/uc?export=download&id=x".toList, [])])
          none ∧
    (getGoogleDriveFolderUrls sampleFolderRegexp sampleCollidingPages
        "https://drive.google.com/drive/folders/F1".toList).2.length = 2 := by
  decide

/-- The keys after the assignment `links[k] = v`. -/
theorem Links.keys_set (m : Links) (k v : GoString) :
    (m.set k v).keys = if k ∈ m.keys then m.keys else m.keys ++ [k] := by
  unfold Links.set Links.keys
  by_cases h : k ∈ m.map Prod.fst
  · have hany : (m.any fun e => e.1 == k) = true := by
      obtain ⟨e, he, hk⟩ := List.mem_map.mp h
      exact List.any_eq_true.mpr ⟨e, he, by simp [hk]⟩
    rw [if_pos hany, if_pos h, List.map_map]
    apply List.map_congr_left
    intro e _
    by_cases hk : e.1 = k
    · simp [hk]
    · simp [hk]
  · have hany : ¬ (m.any fun e => e.1 == k) = true := by
      intro ha
      obtain ⟨e, he, hk⟩ := List.any_eq_true.mp ha
      exact h (List.mem_map.mpr ⟨e, he, by simpa using hk⟩)
    rw [if_neg hany, if_neg h]
    simp

/-- Storing fresh, pairwise distinct keys appends them to the keys. -/
theorem Links.keys_foldl_set {α : Type} (key : α → GoString) (items : List α) :
    ∀ links : Links, (links.keys ++ items.map key).Nodup →
      (items.foldl (fun l item => l.set (key item) []) links).keys
        = links.keys ++ items.map key := by
  induction items with
  | nil => intro links _; simp
  | cons x xs ih =>
    intro links hnd
    have hx : key x ∉ links.keys := by
      intro hmem
      have := (List.nodup_append.mp hnd).2.2
      exact this hmem (by simp)
    have hkeys : (links.set (key x) []).keys = links.keys ++ [key x] := by
      rw [Links.keys_set, if_neg hx]
    simp only [List.foldl_cons]
    rw [ih (links.set (key x) []) (by rw [hkeys]; simpa using hnd), hkeys]
    simp

/-- The drain loop over a chained listing requests each later page once and
stores the files of all of them. -/
theorem driveDrain_chained (q : GoString) (later : List FileList) :
    ∀ (cur : FileList) (links : Links) (trace : List Event),
      chained cur later = true →
      (links.keys ++ later.flatMap (fun page => page.Files.map (fun file => file.Id))).Nodup →
      ∃ links2 trace2,
        driveDrain q (later.map .ok) cur links trace = (.returned (some links2) none, trace2) ∧
        trace2.length = trace.length + later.length ∧
        links2.keys
          = links.keys ++ later.flatMap (fun page => page.Files.map (fun file => file.Id)) := by
  induction later with
  | nil =>
    intro cur links trace hc _
    have ht : cur.NextPageToken = [] := by simpa [chained] using hc
    refine ⟨links, trace, ?_, rfl, by simp⟩
    simp only [List.map_nil, driveDrain]
    rw [if_pos ht]
  | cons next rest ih =>
    intro cur links trace hc hnd
    have hc2 : cur.NextPageToken ≠ [] ∧ chained next rest = true := by
      simpa [chained] using hc
    have hnd2 : (links.keys ++ next.Files.map (fun file => file.Id)
        ++ rest.flatMap (fun page => page.Files.map (fun file => file.Id))).Nodup := by
      simpa [List.flatMap_cons, List.append_assoc] using hnd
    have hstore : (driveNextPageLinks next.Files links).keys
        = links.keys ++ next.Files.map (fun file => file.Id) :=
      Links.keys_foldl_set (fun file : DriveFile => file.Id) next.Files links
        (List.nodup_append.mp hnd2).1
    obtain ⟨links2, trace2, h1, h2, h3⟩ :=
      ih next (driveNextPageLinks next.Files links)
        (trace ++ [.filesList ⟨q, driveFields, 1000, some cur.NextPageToken⟩]) hc2.2
        (by rw [hstore]; exact hnd2)
    refine ⟨links2, trace2, ?_, ?_, ?_⟩
    · rw [← h1]
      simp only [List.map_cons, driveDrain]
      rw [if_neg hc2.1]
    · rw [h2]
      simp
      omega
    · rw [h3, hstore]
      simp [List.flatMap_cons, List.append_assoc]

/-- Pagination draining: for a listing of `later.length + 1` pages in which
every page but the last carries a next-page token, a matching folder URL and
configured credentials, `getGoogleDriveFolderUrls` issues one list request for
each page and, when the keys it stores are pairwise distinct, returns a mapping
with one entry for each file of each page. -/
theorem getGoogleDriveFolderUrls_drains (re : Regexp) (basePath url folderID : GoString)
    (first : FileList) (later : List FileList)
    (hmatch : (re.FindStringSubmatch url)[3]? = some folderID) (hid : folderID ≠ [])
    (hbase : basePath ≠ []) (hchain : chained first later = true)
    (hkeys : (driveStoredKeys first later).Nodup) :
    ∃ links trace,
      getGoogleDriveFolderUrls re ⟨basePath, (first :: later).map .ok⟩ url
        = (.returned (some links) none, trace) ∧
      trace.length = later.length + 1 ∧
      links.keys = driveStoredKeys first later ∧
      links.length = ((first :: later).map (fun page => page.Files.length)).sum := by
  have hfirst : (driveFirstPageLinks first.Files []).keys
      = first.Files.map (fun file =>
          "https://drive.google.com/uc?export=download&id=".toList ++ file.Id) := by
    have := Links.keys_foldl_set
      (fun file : DriveFile => "https://drive.google.com/uc?export=download&id=".toList ++ file.Id)
      first.Files [] (by
        have := (List.nodup_append.mp hkeys).1
        simpa [Links.keys] using this)
    simpa [Links.keys, driveFirstPageLinks] using this
  obtain ⟨links, trace, h1, h2, h3⟩ :=
    driveDrain_chained (driveQuery folderID) later first (driveFirstPageLinks first.Files [])
      [.filesList ⟨driveQuery folderID, driveFields, 1000, none⟩] hchain
      (by rw [hfirst]; exact hkeys)
  refine ⟨links, trace, ?_, ?_, ?_, ?_⟩
  · rw [← h1]
    unfold getGoogleDriveFolderUrls
    simp only [hmatch, List.map_cons]
    rw [if_neg hid, if_neg hbase]
  · rw [h2]
    simp
    omega
  · rw [h3, hfirst]
    rfl
  · have hlen : links.length = links.keys.length := by simp [Links.keys]
    rw [hlen, h3, hfirst]
    simp only [List.length_append, List.length_map, List.length_flatMap, List.map_cons,
      List.sum_cons]
    congr 2
    apply List.map_congr_left
    intro page _
    simp

/-- Pagination draining at the sample listing of two pages: two requests, two
entries. -/
theorem getGoogleDriveFolderUrls_drains_example :
    ∃ links trace,
      getGoogleDriveFolderUrls sampleFolderRegexp sampleTwoPages
          "https://drive.google.com/drive/folders/F1".toList
        = (.returned (some links) none, trace) ∧
      trace.length = 2 ∧
      links.keys = ["https://drive.google.com/uc?export=download&id=a".toList, "b".toList] ∧
      links.length = 2 :=
  getGoogleDriveFolderUrls_drains sampleFolderRegexp
    "https://www.googleapis.com/drive/v3/".toList
    "https://drive.google.com/drive/folders/F1".toList "F1".toList
    ⟨[⟨"a".toList⟩], "page2".toList⟩ [⟨[⟨"b".toList⟩], []⟩]
    (by decide) (by decide) (by decide) (by decide) (by decide)

theorem sampleFile_injective : Function.Injective (fun n => (sampleFile n).Id) := by
  intro m n h
  have := congrArg List.length h
  simpa [sampleFile] using this

/-- Pagination draining at three pages of 1000, 1000 and 42 files with tokens
on the first two: three list requests, 2042 entries. -/
theorem getGoogleDriveFolderUrls_three_pages :
    ∃ links trace,
      getGoogleDriveFolderUrls sampleFolderRegexp
          ⟨"https://www.googleapis.com/drive/v3/".toList,
           [.ok (samplePage 0 1000 "t1".toList), .ok (samplePage 1000 1000 "t2".toList),
            .ok (samplePage 2000 42 [])]⟩
          "https://drive.google.com/drive/folders/F1".toList
        = (.returned (some links) none, trace) ∧
      trace.length = 3 ∧ links.length = 2042 := by
  have hkeys : (driveStoredKeys (samplePage 0 1000 "t1".toList)
      [samplePage 1000 1000 "t2".toList, samplePage 2000 42 []]).Nodup := by
    have hlater : (([samplePage 1000 1000 "t2".toList, samplePage 2000 42 []] : List FileList).flatMap
        (fun page => page.Files.map (fun file => file.Id)))
        = (List.range' 1000 1042).map (fun n => (sampleFile n).Id) := by
      have hr : List.range' 1000 1042 = List.range' 1000 1000 ++ List.range' 2000 42 := by
        rw [List.range'_append_1]
      rw [hr]
      simp [samplePage, List.flatMap_cons, List.map_map, Function.comp_def]
    unfold driveStoredKeys
    rw [hlater]
    apply List.Nodup.append
    · simp only [samplePage, List.map_map]
      apply List.Nodup.map _ (List.nodup_range' 0 1000)
      intro m n h
      exact sampleFile_injective (List.append_cancel_left h)
    · exact List.Nodup.map sampleFile_injective (List.nodup_range' 1000 1042)
    · intro key h1 h2
      obtain ⟨file, _, hf⟩ := List.mem_map.mp h1
      obtain ⟨n, _, hn⟩ := List.mem_map.mp h2
      rw [← hf] at hn
      have := congrArg List.head? hn
      simp [sampleFile, List.replicate_succ] at this
  obtain ⟨links, trace, h1, h2, _, h4⟩ :=
    getGoogleDriveFolderUrls_drains sampleFolderRegexp
      "https://www.googleapis.com/drive/v3/".toList
      "https://drive.google.com/drive/folders/F1".toList "F1".toList
      (samplePage 0 1000 "t1".toList)
      [samplePage 1000 1000 "t2".toList, samplePage 2000 42 []]
      (by decide) (by decide) (by decide) (by decide) hkeys
  refine ⟨links, trace, h1, ?_, ?_⟩
  · rw [h2]; rfl
  · rw [h4]
    simp [samplePage]

/-! ## Gfycat -/

/-- The empty string splits into one part, the empty one. -/
theorem splitOn_length_of_nil (sep : Char) : (splitOn sep []).length = 1 := rfl

/-- For every URL of at least three parts the adapter issues its request and
returns the singleton mapping keyed by whatever `Mp4URL` holds afterwards: the
test of line 369 is on `url`, which is not empty there, so the error of line
370 is never returned. -/
theorem getGfycatUrls_returns_fetched (getJSONGfycat : GoString → GoString) (url : GoString)
    (h : 3 ≤ (splitOn '/' url).length) :
    ∃ gfycatId : GoString,
      (splitOn '/' url)[(splitOn '/' url).length - 1]? = some gfycatId ∧
      getGfycatUrls getJSONGfycat url
        = (.returned
            (some [(getJSONGfycat ("https://api.gfycat.com/v1/gfycats/".toList ++ gfycatId), [])])
            none,
           [.getJSON ("https://api.gfycat.com/v1/gfycats/".toList ++ gfycatId)]) := by
  have hurl : url ≠ [] := by
    intro he
    rw [he, splitOn_length_of_nil] at h
    omega
  have hlt : (splitOn '/' url).length - 1 < (splitOn '/' url).length := by omega
  refine ⟨(splitOn '/' url)[(splitOn '/' url).length - 1], List.getElem?_eq_getElem hlt, ?_⟩
  unfold getGfycatUrls
  simp only []
  rw [if_neg (by omega), List.getElem?_eq_getElem hlt]
  simp only []
  rw [if_neg hurl]

/-- The adapter at `https://gfycat.com/TallFlatBird` with an answer that
decodes to an `Mp4URL`. -/
theorem getGfycatUrls_returns_fetched_example :
    ∃ gfycatId : GoString,
      (splitOn '/' "https://gfycat.com/TallFlatBird".toList)[
          (splitOn '/' "https://gfycat.com/TallFlatBird".toList).length - 1]? = some gfycatId ∧
      getGfycatUrls (fun _ => "https://giant.gfycat.com/TallFlatBird.mp4".toList)
          "https://gfycat.com/TallFlatBird".toList
        = (.returned (some [("https://giant.gfycat.com/TallFlatBird.mp4".toList, [])]) none,
           [.getJSON ("https://api.gfycat.com/v1/gfycats/".toList ++ gfycatId)]) :=
  getGfycatUrls_returns_fetched (fun _ => "https://giant.gfycat.com/TallFlatBird.mp4".toList)
    "https://gfycat.com/TallFlatBird".toList (by decide)

/-- C11 at a failing input: for `https://gfycat.com/TallFlatBird`, a URL of
four parts, and a request that fails, so that `Mp4URL` stays empty, the
adapter returns no error but the mapping whose only key is the empty string. -/
theorem getGfycatUrls_empty_key :
    3 ≤ (splitOn '/' "https://gfycat.com/TallFlatBird".toList).length ∧
    getGfycatUrls (fun _ => []) "https://gfycat.com/TallFlatBird".toList
      = (.returned (some [([], [])]) none,
         [.getJSON "https://api.gfycat.com/v1/gfycats/TallFlatBird".toList]) ∧
    (getGfycatUrls (fun _ => []) "https://gfycat.com/TallFlatBird".toList).1
      ≠ .returned none (some (.errorsNew "Failed to read response from Gfycat".toList)) := by
  decide

end DiscordDownloader
